import Mathlib

/-!
Verification of the binary-expression AST library `binexp_parser.py`.

The source defines a class `BinOpAst` holding four mutable attributes
(`val`, `type`, `left`, `right`).  The constructor consumes a prefix token
list; `prefix_str` serializes back to prefix text; `additive_identity`,
`multiplicative_identity`, `mult_by_zero`, `constant_fold` and
`simplify_binops` are in-place rewrite passes.  We embed the class twice:

* `BinOpAst` — the well-formed inductive view (a `number` leaf or an
  `operator` with two children), on which the passes are total functions;
* `RawTree` — the raw attribute view, where a child slot may hold the
  Python value `False` (constructor `leaf`), used to verify that passes
  preserve the structural shape invariant.

All definitions are transcribed from src/binexp_parser.py.
-/

/-- Embedding of the `NodeType` enum from the source. -/
inductive NodeType where
  | number
  | operator
deriving DecidableEq

/-- Embedding of a well-formed `BinOpAst` node: the `type` attribute is the
constructor, `val` the stored token; a number leaf has `left = right = False`
in the source, an operator holds two child nodes. -/
inductive BinOpAst where
  | number (val : String)
  | operator (val : String) (left : BinOpAst) (right : BinOpAst)
deriving DecidableEq

/-- Embedding of Python `str.isnumeric` on the ASCII tokens this program
handles: a non-empty string of decimal digits. -/
def isnumeric (s : String) : Bool :=
  !s.data.isEmpty && s.data.all Char.isDigit

/-- The `val` attribute of a node (either constructor stores it). -/
def BinOpAst.val : BinOpAst → String
  | .number v => v
  | .operator v _ _ => v

/-- Embedding of `BinOpAst.__init__`: pop the first token; a numeric token
becomes a `number` leaf, any other token becomes an `operator` whose left
child is parsed from the remaining tokens and whose right child from what
the left parse leaves over.  `none` models the `IndexError` raised by
`list.pop(0)` on an empty list; the fuel argument only bounds recursion
depth and is an artifact of the embedding. -/
def parse : Nat → List String → Option (BinOpAst × List String)
  | 0, _ => none
  | _ + 1, [] => none
  | fuel + 1, tok :: rest =>
    if isnumeric tok then
      some (.number tok, rest)
    else
      (parse fuel rest).bind fun lp =>
        (parse fuel lp.2).bind fun rp =>
          some (.operator tok lp.1 rp.1, rp.2)

/-- Running the constructor on a whole token list, as `BinOpAst(lst)` does
(the Python list is drained destructively; here the leftover suffix is
returned instead).  Fuel `ts.length` suffices for any successful parse
because every recursive call consumes at least one token. -/
def parseTokens (ts : List String) : Option (BinOpAst × List String) :=
  parse ts.length ts

/-- The tokens a tree prints, in prefix order: the source's `prefix_str`
output, split back into tokens. -/
def BinOpAst.tokenList : BinOpAst → List String
  | .number v => [v]
  | .operator v l r => v :: (l.tokenList ++ r.tokenList)

/-- Embedding of `BinOpAst.prefix_str`: a number prints its literal text,
an operator prints `val left right` separated by single spaces. -/
def BinOpAst.prefix_str : BinOpAst → String
  | .number v => v
  | .operator v l r => v ++ " " ++ l.prefix_str ++ " " ++ r.prefix_str

/-- Space-joining of a token list, the textual form of a prefix line. -/
def joinTokens : List String → String
  | [] => ""
  | [t] => t
  | t :: ts => t ++ " " ++ joinTokens ts

/-- Embedding of `BinOpAst.additive_identity`: post-order recursion into
both children, then — unless the node's symbol is `*`, the only symbol the
source guard excludes — if a child's `val` is the string `0`, the node is
overwritten with the other child's `val`/`type`/`left`/`right`. -/
def BinOpAst.additive_identity : BinOpAst → BinOpAst
  | .number v => .number v
  | .operator v l r =>
    if v = "*" then .operator v l.additive_identity r.additive_identity
    else if l.additive_identity.val = "0" then r.additive_identity
    else if r.additive_identity.val = "0" then l.additive_identity
    else .operator v l.additive_identity r.additive_identity

/-- Embedding of `BinOpAst.multiplicative_identity`: post-order recursion
into both children, then — unless the node's symbol is `+`, the only symbol
the source guard excludes — if a child's `val` is the string `1`, the node
is overwritten with the other child's `val`/`type`/`left`/`right`. -/
def BinOpAst.multiplicative_identity : BinOpAst → BinOpAst
  | .number v => .number v
  | .operator v l r =>
    if v = "+" then .operator v l.multiplicative_identity r.multiplicative_identity
    else if l.multiplicative_identity.val = "1" then r.multiplicative_identity
    else if r.multiplicative_identity.val = "1" then l.multiplicative_identity
    else .operator v l.multiplicative_identity r.multiplicative_identity

/-- Embedding of `BinOpAst.mult_by_zero`: the source method's body consists
of nothing but its docstring, so it performs no mutation at all. -/
def BinOpAst.mult_by_zero (t : BinOpAst) : BinOpAst := t

/-- Embedding of `BinOpAst.constant_fold`: the source method's body is
`pass`, so it performs no mutation at all. -/
def BinOpAst.constant_fold (t : BinOpAst) : BinOpAst := t

/-- Embedding of `BinOpAst.simplify_binops`: the source body calls
`self.additive_identity()` and then `self.multiplicative_identity()`, and
nothing else. -/
def BinOpAst.simplify_binops (t : BinOpAst) : BinOpAst :=
  t.additive_identity.multiplicative_identity

/-- Whether a node is the literal leaf `0` (a `number` with text `0`). -/
def isZeroLeaf : BinOpAst → Bool
  | .number v => v == "0"
  | .operator _ _ _ => false

/-- Modelled from the spec: the intended `mult_by_zero` pass, whose body is
missing from the source.  Post-order; guarded by `symbol == '*'`; if either
child is the leaf `0`, the node is replaced with a fresh `Number("0")`
leaf. -/
def specMultByZero : BinOpAst → BinOpAst
  | .number v => .number v
  | .operator v l r =>
    if v = "*" && (isZeroLeaf (specMultByZero l) || isZeroLeaf (specMultByZero r)) then
      .number "0"
    else
      .operator v (specMultByZero l) (specMultByZero r)

/-- Well-formedness of a tree with respect to the parser: number leaves
hold numeric tokens, operator nodes hold non-numeric symbols.  Exactly the
trees the constructor can build. -/
inductive WFTree : BinOpAst → Prop where
  | number (v : String) (hv : isnumeric v = true) : WFTree (.number v)
  | operator (v : String) (l r : BinOpAst) (hv : isnumeric v = false)
      (hl : WFTree l) (hr : WFTree r) : WFTree (.operator v l r)

/-- The raw attribute view of a node: `leaf` stands for the Python value
`False` stored in the `left`/`right` slots of a number node; `node` carries
the four attributes `val`, `type`, `left`, `right` verbatim. -/
inductive RawTree where
  | leaf
  | node (val : String) (ty : NodeType) (left : RawTree) (right : RawTree)
deriving DecidableEq

/-- `BinOpAst.additive_identity` on the raw attribute view.  Calling the
method on the Python value `False`, or reading `.val` from it, raises
`AttributeError`; both are modelled by `none`.  A number node returns
immediately; an operator recurses into both children and then applies the
source's rewrite. -/
def RawTree.additive_identity : RawTree → Option RawTree
  | .leaf => none
  | .node v NodeType.number l r => some (.node v NodeType.number l r)
  | .node v NodeType.operator l r =>
    match l.additive_identity, r.additive_identity with
    | some l', some r' =>
      if v = "*" then some (.node v NodeType.operator l' r')
      else
        match l', r' with
        | .node lv lty ll lr, .node rv rty rl rr =>
          if lv = "0" then some (.node rv rty rl rr)
          else if rv = "0" then some (.node lv lty ll lr)
          else some (.node v NodeType.operator (.node lv lty ll lr) (.node rv rty rl rr))
        | _, _ => none
    | _, _ => none

/-- `BinOpAst.multiplicative_identity` on the raw attribute view, modelled
exactly like `RawTree.additive_identity`. -/
def RawTree.multiplicative_identity : RawTree → Option RawTree
  | .leaf => none
  | .node v NodeType.number l r => some (.node v NodeType.number l r)
  | .node v NodeType.operator l r =>
    match l.multiplicative_identity, r.multiplicative_identity with
    | some l', some r' =>
      if v = "+" then some (.node v NodeType.operator l' r')
      else
        match l', r' with
        | .node lv lty ll lr, .node rv rty rl rr =>
          if lv = "1" then some (.node rv rty rl rr)
          else if rv = "1" then some (.node lv lty ll lr)
          else some (.node v NodeType.operator (.node lv lty ll lr) (.node rv rty rl rr))
        | _, _ => none
    | _, _ => none

/-- The structural shape invariant: every number node has no children
(both slots hold `False`), every operator node has exactly two child
nodes, recursively well-shaped. -/
inductive WFShape : RawTree → Prop where
  | number (v : String) : WFShape (.node v NodeType.number .leaf .leaf)
  | operator (v : String) (l r : RawTree) (hl : WFShape l) (hr : WFShape r) :
      WFShape (.node v NodeType.operator l r)

lemma parse_sound (fuel : Nat) :
    ∀ ts t rem, parse fuel ts = some (t, rem) → ts = t.tokenList ++ rem := by
  induction fuel with
  | zero =>
    intro ts t rem h
    simp [parse] at h
  | succ n ih =>
    intro ts t rem h
    cases ts with
    | nil => simp [parse] at h
    | cons tok rest =>
      by_cases hnum : isnumeric tok
      · simp only [parse, hnum, if_true] at h
        obtain ⟨rfl, rfl⟩ := Prod.mk.injEq .. ▸ Option.some.inj h
        simp [BinOpAst.tokenList]
      · simp only [parse, hnum, Bool.false_eq_true, if_false] at h
        cases hl : parse n rest with
        | none => simp [hl] at h
        | some lp =>
          obtain ⟨l, rest1⟩ := lp
          simp only [hl, Option.some_bind] at h
          cases hr : parse n rest1 with
          | none => simp [hr] at h
          | some rp =>
            obtain ⟨r, rest2⟩ := rp
            simp only [hr, Option.some_bind, Option.some.injEq, Prod.mk.injEq] at h
            obtain ⟨rfl, rfl⟩ := h
            have e1 := ih rest l rest1 hl
            have e2 := ih rest1 r rest2 hr
            subst e1; subst e2
            simp [BinOpAst.tokenList]

lemma tokenList_ne_nil (t : BinOpAst) : t.tokenList ≠ [] := by
  cases t <;> simp [BinOpAst.tokenList]

lemma parse_complete {t : BinOpAst} (h : WFTree t) :
    ∀ fuel rest, t.tokenList.length ≤ fuel →
      parse fuel (t.tokenList ++ rest) = some (t, rest) := by
  induction h with
  | number v hv =>
    intro fuel rest hlen
    cases fuel with
    | zero => simp [BinOpAst.tokenList] at hlen
    | succ m => simp [BinOpAst.tokenList, parse, hv]
  | operator v l r hv hwl hwr ihl ihr =>
    intro fuel rest hlen
    cases fuel with
    | zero => simp [BinOpAst.tokenList] at hlen
    | succ m =>
      have hlenl : l.tokenList.length ≤ m := by
        simp [BinOpAst.tokenList] at hlen
        omega
      have hlenr : r.tokenList.length ≤ m := by
        simp [BinOpAst.tokenList] at hlen
        omega
      have harr : (BinOpAst.operator v l r).tokenList ++ rest
          = v :: (l.tokenList ++ (r.tokenList ++ rest)) := by
        simp [BinOpAst.tokenList]
      rw [harr]
      simp only [parse, hv, Bool.false_eq_true, if_false]
      rw [ihl m (r.tokenList ++ rest) hlenl]
      simp only [Option.some_bind]
      rw [ihr m rest hlenr]
      simp

lemma joinTokens_cons (x : String) (xs : List String) (hxs : xs ≠ []) :
    joinTokens (x :: xs) = x ++ " " ++ joinTokens xs := by
  cases xs with
  | nil => exact absurd rfl hxs
  | cons y ys => rfl

lemma joinTokens_append (xs ys : List String) (hx : xs ≠ []) (hy : ys ≠ []) :
    joinTokens (xs ++ ys) = joinTokens xs ++ " " ++ joinTokens ys := by
  induction xs with
  | nil => exact absurd rfl hx
  | cons x xs ih =>
    cases xs with
    | nil => simp [joinTokens_cons x ys hy, joinTokens]
    | cons y ys2 =>
      have ih2 := ih (by simp)
      rw [List.cons_append, joinTokens_cons x ((y :: ys2) ++ ys) (by simp),
        joinTokens_cons x (y :: ys2) (by simp), ih2]
      simp [String.append_assoc]

lemma prefix_str_eq_joinTokens (t : BinOpAst) :
    t.prefix_str = joinTokens t.tokenList := by
  induction t with
  | number v => rfl
  | operator v l r ihl ihr =>
    have hne : l.tokenList ++ r.tokenList ≠ [] := by
      simp [tokenList_ne_nil l]
    simp only [BinOpAst.prefix_str, BinOpAst.tokenList]
    rw [joinTokens_cons v _ hne,
      joinTokens_append _ _ (tokenList_ne_nil l) (tokenList_ne_nil r), ihl, ihr]
    simp [String.append_assoc]

lemma additive_identity_idem (t : BinOpAst) :
    t.additive_identity.additive_identity = t.additive_identity := by
  induction t with
  | number v => rfl
  | operator v l r ihl ihr =>
    simp only [BinOpAst.additive_identity]
    split_ifs with hv hl0 hr0
    · subst hv
      simp [BinOpAst.additive_identity, ihl, ihr]
    · exact ihr
    · exact ihl
    · simp [BinOpAst.additive_identity, hv, ihl, ihr, hl0, hr0]

lemma multiplicative_identity_idem (t : BinOpAst) :
    t.multiplicative_identity.multiplicative_identity = t.multiplicative_identity := by
  induction t with
  | number v => rfl
  | operator v l r ihl ihr =>
    simp only [BinOpAst.multiplicative_identity]
    split_ifs with hv hl1 hr1
    · subst hv
      simp [BinOpAst.multiplicative_identity, ihl, ihr]
    · exact ihr
    · exact ihl
    · simp [BinOpAst.multiplicative_identity, hv, ihl, ihr, hl1, hr1]

lemma wfshape_is_node {t : RawTree} (h : WFShape t) :
    ∃ v ty l r, t = RawTree.node v ty l r := by
  cases h with
  | number v => exact ⟨v, _, _, _, rfl⟩
  | operator v l r hl hr => exact ⟨v, _, _, _, rfl⟩

lemma raw_additive_identity_shape {t : RawTree} (h : WFShape t) :
    ∃ u, t.additive_identity = some u ∧ WFShape u := by
  induction h with
  | number v => exact ⟨_, rfl, WFShape.number v⟩
  | operator v l r hwl hwr ihl ihr =>
    obtain ⟨l', hl', wl'⟩ := ihl
    obtain ⟨r', hr', wr'⟩ := ihr
    obtain ⟨lv, lty, ll, lr, rfl⟩ := wfshape_is_node wl'
    obtain ⟨rv, rty, rl, rr, rfl⟩ := wfshape_is_node wr'
    simp only [RawTree.additive_identity, hl', hr']
    by_cases hv : v = "*"
    · exact ⟨_, by simp [hv], WFShape.operator v _ _ wl' wr'⟩
    · by_cases h0 : lv = "0"
      · exact ⟨_, by simp [hv, h0], wr'⟩
      · by_cases h0r : rv = "0"
        · exact ⟨_, by simp [hv, h0, h0r], wl'⟩
        · exact ⟨_, by simp [hv, h0, h0r], WFShape.operator v _ _ wl' wr'⟩

lemma raw_multiplicative_identity_shape {t : RawTree} (h : WFShape t) :
    ∃ u, t.multiplicative_identity = some u ∧ WFShape u := by
  induction h with
  | number v => exact ⟨_, rfl, WFShape.number v⟩
  | operator v l r hwl hwr ihl ihr =>
    obtain ⟨l', hl', wl'⟩ := ihl
    obtain ⟨r', hr', wr'⟩ := ihr
    obtain ⟨lv, lty, ll, lr, rfl⟩ := wfshape_is_node wl'
    obtain ⟨rv, rty, rl, rr, rfl⟩ := wfshape_is_node wr'
    simp only [RawTree.multiplicative_identity, hl', hr']
    by_cases hv : v = "+"
    · exact ⟨_, by simp [hv], WFShape.operator v _ _ wl' wr'⟩
    · by_cases h1 : lv = "1"
      · exact ⟨_, by simp [hv, h1], wr'⟩
      · by_cases h1r : rv = "1"
        · exact ⟨_, by simp [hv, h1, h1r], wl'⟩
        · exact ⟨_, by simp [hv, h1, h1r], WFShape.operator v _ _ wl' wr'⟩

/-- C1: the source `additive_identity` fires on the subtraction node parsed
from `- 0 5` (its guard excludes only the symbol `*`), rewriting it to the
leaf `5`, although the claim says nodes whose symbol is not `+` are left
unchanged. -/
theorem additive_identity_fires_on_minus :
    parseTokens ["-", "0", "5"]
      = some (.operator "-" (.number "0") (.number "5"), []) ∧
    (BinOpAst.operator "-" (.number "0") (.number "5")).additive_identity
      = .number "5" :=
  ⟨rfl, rfl⟩

/-- C2: the source `multiplicative_identity` fires on the subtraction node
parsed from `- 5 1` (its guard excludes only the symbol `+`), rewriting it
to to the leaf `5`, although the claim says only `*` nodes are rewritten. -/
theorem multiplicative_identity_fires_on_minus :
    parseTokens ["-", "5", "1"]
      = some (.operator "-" (.number "5") (.number "1"), []) ∧
    (BinOpAst.operator "-" (.number "5") (.number "1")).multiplicative_identity
      = .number "5" :=
  ⟨rfl, rfl⟩

/-- C3: the source `mult_by_zero` has an empty body, so the `*` node with a
zero child parsed from `* 0 5` is left completely unchanged and still
serializes to `* 0 5`, although the claim says it becomes the leaf `0`. -/
theorem mult_by_zero_is_noop :
    (BinOpAst.operator "*" (.number "0") (.number "5")).mult_by_zero
      = BinOpAst.operator "*" (.number "0") (.number "5") ∧
    (BinOpAst.operator "*" (.number "0") (.number "5")).mult_by_zero.prefix_str
      = "* 0 5" :=
  ⟨rfl, rfl⟩

/-- C4: the source `simplify_binops` calls only `additive_identity` and
`multiplicative_identity`, so the tree parsed from `* 0 5` survives it
unchanged, while the spec's four-pass pipeline — whose `mult_by_zero`
member is modelled here by `specMultByZero` — reduces that tree to the
leaf `0`. -/
theorem simplify_binops_omits_mult_by_zero :
    (BinOpAst.operator "*" (.number "0") (.number "5")).simplify_binops
      = BinOpAst.operator "*" (.number "0") (.number "5") ∧
    specMultByZero (BinOpAst.operator "*" (.number "0") (.number "5"))
      = .number "0" :=
  ⟨rfl, rfl⟩

/-- C5 counterexample: the token `x` is not numeric, so the source parser
treats it as an operator needing two operands; parsing `+ x 0` therefore
exhausts the input and builds no tree at all, contradicting the claim that
it parses and simplifies to `x`. -/
theorem parse_plus_x_zero_fails :
    parseTokens ["+", "x", "0"] = none ∧
    ¬ ∃ t, parseTokens ["+", "x", "0"] = some (t, []) := by
  constructor
  · rfl
  · intro hex
    obtain ⟨t, ht⟩ := hex
    rw [show parseTokens ["+", "x", "0"] = none from rfl] at ht
    exact Option.noConfusion ht

/-- C5 amended: with a numeric leaf in place of `x`, parsing `+ 5 0`, then
`additive_identity`, then `prefix_str` yields the string `5`. -/
theorem additive_identity_numeric_leaf :
    parseTokens ["+", "5", "0"]
      = some (.operator "+" (.number "5") (.number "0"), []) ∧
    (BinOpAst.operator "+" (.number "5") (.number "0")).additive_identity.prefix_str
      = "5" :=
  ⟨rfl, rfl⟩

/-- C6: round-trip — a token sequence the constructor fully consumes is
reproduced exactly by `prefix_str`: the tree's tokens are the input tokens
in the same order, and the printed string is their space-joining. -/
theorem parse_prefix_str_roundtrip {T : List String} {t : BinOpAst}
    (h : parseTokens T = some (t, [])) :
    t.tokenList = T ∧ t.prefix_str = joinTokens T := by
  have hs := parse_sound T.length T t [] h
  have hT : t.tokenList = T := by simpa using hs.symm
  exact ⟨hT, by rw [prefix_str_eq_joinTokens, hT]⟩

/-- C6 witness at the sequence `+ 1 2`. -/
theorem parse_prefix_str_roundtrip_witness :
    parseTokens ["+", "1", "2"]
      = some (.operator "+" (.number "1") (.number "2"), []) ∧
    ((BinOpAst.operator "+" (.number "1") (.number "2")).tokenList
        = ["+", "1", "2"] ∧
      (BinOpAst.operator "+" (.number "1") (.number "2")).prefix_str
        = joinTokens ["+", "1", "2"]) :=
  ⟨rfl, parse_prefix_str_roundtrip rfl⟩

/-- C7: the parser fails on an empty token list, and when an operator
token's left- or right-child parse fails the failure propagates: the whole
parse returns `none` — no partially-built tree is ever produced.  (In the
source both failures are the `IndexError` raised by `pop` on an empty
list.) -/
theorem parse_failure_propagates (fuel : Nat) (op : String) (rest : List String)
    (hop : isnumeric op = false) :
    parse fuel [] = none ∧
    (parse fuel rest = none → parse (fuel + 1) (op :: rest) = none) ∧
    (∀ l rest1, parse fuel rest = some (l, rest1) → parse fuel rest1 = none →
      parse (fuel + 1) (op :: rest) = none) := by
  refine ⟨?_, ?_, ?_⟩
  · cases fuel with
    | zero => rfl
    | succ n => rfl
  · intro h
    simp [parse, hop, h]
  · intro l rest1 h1 h2
    simp [parse, hop, h1, h2]

/-- C7 witness: `+` with a single operand — the right-child parse hits the
empty list and the failure propagates to the whole parse of `+ 1`. -/
theorem parse_failure_propagates_witness :
    isnumeric "+" = false ∧ parse 2 ["+", "1"] = none :=
  ⟨by decide,
    (parse_failure_propagates 1 "+" ["1"] (by decide)).2.2
      (BinOpAst.number "1") [] rfl rfl⟩

/-- C8: a token sequence that is exactly one well-formed prefix expression
of N tokens is fully consumed by the constructor: parsing it succeeds and
leaves zero tokens remaining. -/
theorem parse_consumes_all {t : BinOpAst} (h : WFTree t) :
    parse t.tokenList.length t.tokenList = some (t, []) := by
  have hc := parse_complete h t.tokenList.length [] le_rfl
  simpa using hc

/-- C8 witness at the three-token expression `+ 1 2`. -/
theorem parse_consumes_all_witness :
    parse (["+", "1", "2"].length) ["+", "1", "2"]
      = some (BinOpAst.operator "+" (.number "1") (.number "2"), []) :=
  parse_consumes_all
    (WFTree.operator "+" _ _ (by decide)
      (WFTree.number "1" (by decide)) (WFTree.number "2" (by decide)))

/-- C9: each of the four simplification passes is idempotent — applying it
twice gives the same tree as applying it once (`mult_by_zero` and
`constant_fold` trivially so, since their source bodies do nothing). -/
theorem passes_idempotent (t : BinOpAst) :
    t.additive_identity.additive_identity = t.additive_identity ∧
    t.multiplicative_identity.multiplicative_identity = t.multiplicative_identity ∧
    t.mult_by_zero.mult_by_zero = t.mult_by_zero ∧
    t.constant_fold.constant_fold = t.constant_fold :=
  ⟨additive_identity_idem t, multiplicative_identity_idem t, rfl, rfl⟩

/-- C10: on the raw attribute view, both identity passes preserve the
structural shape invariant — starting from a tree in which every operator
node has exactly two child nodes and every number node has none, the pass
succeeds (no attribute error) and its result satisfies the same
invariant. -/
theorem passes_preserve_shape {t : RawTree} (h : WFShape t) :
    (∃ u, t.additive_identity = some u ∧ WFShape u) ∧
    (∃ u, t.multiplicative_identity = some u ∧ WFShape u) :=
  ⟨raw_additive_identity_shape h, raw_multiplicative_identity_shape h⟩

/-- C10 witness at the raw tree for `+ 1 0`. -/
theorem passes_preserve_shape_witness :
    (∃ u, (RawTree.node "+" NodeType.operator
        (.node "1" NodeType.number .leaf .leaf)
        (.node "0" NodeType.number .leaf .leaf)).additive_identity
      = some u ∧ WFShape u) ∧
    (∃ u, (RawTree.node "+" NodeType.operator
        (.node "1" NodeType.number .leaf .leaf)
        (.node "0" NodeType.number .leaf .leaf)).multiplicative_identity
      = some u ∧ WFShape u) :=
  passes_preserve_shape
    (WFShape.operator "+" _ _ (WFShape.number "1") (WFShape.number "0"))
